import Mathlib

/-!
Verification development for the record manager in `record_mgr.c`: a paged
record store with a schema page (block 0), a chain of page-directory pages,
and data pages holding a slot directory plus record payloads.

The shallow embedding below translates the C source function by function.
Machine integers are modelled as `Nat`/`Int` (a C `int` is 4 bytes; the byte
encoding is little-endian two's complement where bytes matter).  Page frames
are modelled structurally: a data page is a slot-entry store (one entry per
slot index, a zeroed entry for untouched memory, matching `calloc`) together
with a byte store for record payloads.  The buffer pool is treated as a
transparent cache (pins of the same block see earlier writes); the raw
`writeBlock` calls that bypass the pool are modelled only where observable,
namely for the page-directory blocks used by save/load and the flush that
happens when a table is closed.  `PAGE_SIZE`, `sizeof(SlotDirectoryEntry)`
and `sizeof(PageDirectoryEntry)` come from headers that are not part of the
source file, so they are parameters of the model.
-/

namespace RecordMgr

/-- Return codes used by the record manager, from `record_mgr.h` usage sites. -/
inductive RC where
  | RC_OK
  | RC_INVALID_INPUT
  | RC_RM_INVALID_RID
  | RC_RM_RECORD_NOT_FOUND
  | RC_RM_NO_MORE_TUPLES
  | RC_RM_INVALID_ATTRIBUTE
  | RC_RM_ATTRIBUTE_TYPE_MISMATCH
  | RC_RM_DATA_TYPE_ERROR
  | RC_MEMORY_ALLOCATION_FAIL
  | RC_PAGE_FULL
  deriving DecidableEq

open RC

/-- Pointwise update of a function store (a memory cell write). -/
def updF {α : Type} (f : ℕ → α) (i : ℕ) (a : α) : ℕ → α :=
  fun n => if n = i then a else f n

/-- Write a list of bytes at consecutive addresses (the `memcpy` of the source). -/
def memWrite (m : ℕ → ℕ) : ℕ → List ℕ → (ℕ → ℕ)
  | _, [] => m
  | off, b :: bs => memWrite (updF m off b) (off + 1) bs

/-- Read `len` bytes starting at `off` (the inverse `memcpy`). -/
def memRead (m : ℕ → ℕ) (off len : ℕ) : List ℕ :=
  (List.range len).map (fun i => m (off + i))

/-! ## Schema, values and the attribute codec (`setAttr` / `getAttr`) -/

/-- The four data types of `dt.h`. -/
inductive DataType where
  | DT_INT
  | DT_FLOAT
  | DT_BOOL
  | DT_STRING
  deriving DecidableEq

open DataType

/-- A table schema: attribute names, types, string widths and key attributes. -/
structure Schema where
  numAttr : ℕ
  attrNames : List String
  dataTypes : List DataType
  typeLength : List ℕ
  keySize : ℕ
  keyAttrs : List ℕ

/-- A typed value.  A C `float` is only ever `memcpy`ed by the source, so its
payload is modelled by its four-byte in-memory representation; a C string is
modelled by its content bytes (the NUL terminator is implicit). -/
inductive Value where
  | intV (i : Int)
  | floatV (bytes : List ℕ)
  | boolV (b : Bool)
  | stringV (s : List ℕ)
  deriving DecidableEq

/-- The `dt` tag stored alongside the union in a C `Value`. -/
def Value.dt : Value → DataType
  | .intV _ => DT_INT
  | .floatV _ => DT_FLOAT
  | .boolV _ => DT_BOOL
  | .stringV _ => DT_STRING

/-- Byte width of one attribute: `sizeof(int)` / `sizeof(float)` /
`sizeof(bool)` / `typeLength[i]`, as in the `switch` of `computeRecordSize`. -/
def attrSize : DataType → ℕ → ℕ
  | DT_INT, _ => 4
  | DT_FLOAT, _ => 4
  | DT_BOOL, _ => 1
  | DT_STRING, len => len

/-- Record size for a schema (`computeRecordSize`): sum of attribute sizes. -/
def computeRecordSize (sch : Schema) : ℕ :=
  ((List.range sch.numAttr).map
    (fun i => attrSize (sch.dataTypes.getD i DT_INT) (sch.typeLength.getD i 0))).sum

/-- Byte offset of attribute `attrIdx` (`calculateAttributeOffset`): sum of the
sizes of the attributes before it. -/
def calculateAttributeOffset (sch : Schema) (attrIdx : ℕ) : ℕ :=
  ((List.range attrIdx).map
    (fun i => attrSize (sch.dataTypes.getD i DT_INT) (sch.typeLength.getD i 0))).sum

/-- Little-endian two's-complement encoding of a C `int`'s four bytes. -/
def encodeIntLE (i : Int) : List ℕ :=
  let n := (i % (2 ^ 32 : Int)).toNat
  [n % 256, n / 256 % 256, n / 256 ^ 2 % 256, n / 256 ^ 3 % 256]

/-- Reinterpret four bytes as a C `int`. -/
def decodeIntLE (bs : List ℕ) : Int :=
  let n : ℕ := bs.getD 0 0 + 256 * bs.getD 1 0 + 256 ^ 2 * bs.getD 2 0 + 256 ^ 3 * bs.getD 3 0
  if n < 2 ^ 31 then (n : Int) else (n : Int) - 2 ^ 32

/-- Reinterpret one byte as a C `bool`. -/
def decodeBool (b : ℕ) : Bool := b ≠ 0

/-- Normalise a float payload to exactly four bytes (`memcpy` of `sizeof(float)`). -/
def fourBytes (bs : List ℕ) : List ℕ := (bs ++ List.replicate 4 0).take 4

/-- The byte effect of `strncpy(dst, src, n)`: copy from `src` up to the first
NUL byte and at most `n` bytes, zero-filling the remainder of the `n` bytes. -/
def strncpyPad (src : List ℕ) (n : ℕ) : List ℕ :=
  (src.takeWhile (fun b => b ≠ 0)).take n ++
    List.replicate (n - (src.takeWhile (fun b => b ≠ 0)).length) 0

/-- Overwrite `new.length` bytes of `data` starting at `off`. -/
def splice (data : List ℕ) (off : ℕ) (new : List ℕ) : List ℕ :=
  data.take off ++ new ++ data.drop (off + new.length)

/-- Read `len` bytes of `data` starting at `off`. -/
def subBytes (data : List ℕ) (off len : ℕ) : List ℕ :=
  (data.drop off).take len

/-- `setAttr`: validate the attribute index and the value's type tag, then
copy the value's bytes into the record at the attribute's offset. -/
def setAttr (data : List ℕ) (sch : Schema) (attrNum : Int) (v : Value) : RC × List ℕ :=
  if attrNum < 0 ∨ (sch.numAttr : Int) ≤ attrNum then (RC_RM_INVALID_ATTRIBUTE, data)
  else
    let k := attrNum.toNat
    if v.dt ≠ sch.dataTypes.getD k DT_INT then (RC_RM_ATTRIBUTE_TYPE_MISMATCH, data)
    else
      let off := calculateAttributeOffset sch k
      match v with
      | .intV i => (RC_OK, splice data off (encodeIntLE i))
      | .floatV bs => (RC_OK, splice data off (fourBytes bs))
      | .boolV b => (RC_OK, splice data off [if b then 1 else 0])
      | .stringV s => (RC_OK, splice data off (strncpyPad s (sch.typeLength.getD k 0)))

/-- `getAttr`: validate the attribute index, then read the typed bytes at the
attribute's offset.  For STRING the result is the freshly allocated buffer of
`typeLength + 1` bytes: an `strncpy` of the field followed by a NUL store at
index `typeLength`. -/
def getAttr (data : List ℕ) (sch : Schema) (attrNum : Int) : RC × Option Value :=
  if attrNum < 0 ∨ (sch.numAttr : Int) ≤ attrNum then (RC_RM_INVALID_ATTRIBUTE, none)
  else
    let k := attrNum.toNat
    let off := calculateAttributeOffset sch k
    match sch.dataTypes.getD k DT_INT with
    | DT_INT => (RC_OK, some (.intV (decodeIntLE (subBytes data off 4))))
    | DT_FLOAT => (RC_OK, some (.floatV (subBytes data off 4)))
    | DT_BOOL => (RC_OK, some (.boolV (decodeBool (data.getD off 0))))
    | DT_STRING =>
      let n := sch.typeLength.getD k 0
      (RC_OK, some (.stringV (strncpyPad (subBytes data off n) n ++ [0])))

/-! ## Table state machine

The in-memory handle of an open table (`RM_managementData`) plus the blocks
reachable through the buffer pool.  `nP` is the source's `numPages` (every
page except the schema page) and `nDP` its `numPageDP` (directory pages).
-/

/-- Layout constants that live in headers outside the source file:
page size and the `sizeof` of the two directory-entry structs. -/
structure Params where
  PS : ℕ
  rs : ℕ
  SDE : ℕ
  PDEsz : ℕ

/-- A slot-directory entry `(offset, isFree)`.  A zeroed entry (offset 0, not
free) is what untouched `calloc` memory parses as. -/
structure SlotEntry where
  offset : Int
  isFree : Bool
  deriving DecidableEq

/-- A page-directory entry: data-page id, free-slot hint, free bytes, and the
number of allocated slot positions. -/
structure PDEntry where
  pageID : ℕ
  hasFreeSlot : Bool
  freeSpace : Int
  recordCount : ℕ
  deriving DecidableEq

/-- What a zeroed page-directory entry parses as. -/
def defPDE : PDEntry := ⟨0, false, 0, 0⟩

/-- A data-page frame: the slot directory (structural view of the entries at
the start of the page) and the payload byte store. -/
structure Page where
  slots : ℕ → SlotEntry
  mem : ℕ → ℕ

/-- A freshly appended, zeroed page. -/
def zeroPage : Page := ⟨fun _ => ⟨0, false⟩, fun _ => 0⟩

/-- A record identifier; both components are C `int`s. -/
structure RID where
  page : Int
  slot : Int
  deriving DecidableEq

/-- The open-table state.  `blocks` is the content of physical blocks as seen
through the buffer pool; `dirDisk` is the on-disk content of blocks as far as
the page-directory loader is concerned (`none` parses as a zeroed block). -/
structure MState where
  nP : ℕ
  nDP : ℕ
  dir : List PDEntry
  blocks : ℕ → Page
  dirDisk : ℕ → Option (ℕ × ℕ × List PDEntry)

/-- `maxEntriesPerPage = (PAGE_SIZE - 2*sizeof(int)) / sizeof(PageDirectoryEntry)`. -/
def maxEPP (P : Params) : ℕ := (P.PS - 2 * 4) / P.PDEsz

/-- Number of data pages: `numPages - numPageDP + 1`, the loop bound used by
`getNumTuples`, `findFreePageIndex` and `next`. -/
def numDataPages (s : MState) : ℕ := s.nP - s.nDP + 1

/-- `initPageDirectoryEntry`: a fresh data page with all of `PAGE_SIZE` free. -/
def initPageDirectoryEntry (P : Params) (pageId : ℕ) : PDEntry :=
  ⟨pageId, true, (P.PS : Int), 0⟩

/-- The physical block that `insertRecord`/`getRecord`/`deleteRecord`/
`updateRecord` pin for data page `p`: `p + numPageDP + 1`. -/
def recPhysPage (p nDP : ℕ) : ℕ := p + nDP + 1

/-- `ceilDivision`: ceiling division on machine ints. -/
def ceilDivision (numerator denominator : ℕ) : ℕ :=
  (numerator + denominator - 1) / denominator

/-- The physical block that `next` pins for data page `p`:
`ceilDivision(p + 1, maxEntriesPerPage) + 1 + p`. -/
def scanPhysPage (M p : ℕ) : ℕ := ceilDivision (p + 1) M + 1 + p

/-- `isValidRecordID`: page within `[0, totalPages)` and non-negative slot. -/
def isValidRecordID (id : RID) (totalPages : ℕ) : Bool :=
  decide (0 ≤ id.page) && decide (id.page < (totalPages : Int)) && decide (0 ≤ id.slot)

/-- `getNumTuples`: sum of `recordCount` over the in-memory page directory. -/
def getNumTuples (s : MState) : ℕ :=
  ((List.range (numDataPages s)).map (fun i => (s.dir.getD i defPDE).recordCount)).sum

/-- `findFreePageIndex`: first directory entry whose `hasFreeSlot` is set. -/
def findFreePageIndex (s : MState) : Option ℕ :=
  (List.range (numDataPages s)).find? (fun i => (s.dir.getD i defPDE).hasFreeSlot)

/-- `locateFreeSlot`: first slot index below `recordCount` marked free. -/
def locateFreeSlot (page : Page) (recordCount : ℕ) : Option ℕ :=
  (List.range recordCount).find? (fun i => (page.slots i).isFree)

/-- `updatePageStatistics`: credit or debit `freeSpace` and recompute the
`hasFreeSlot` hint; `recordCount` is not touched. -/
def updatePageStatistics (P : Params) (s : MState) (pageIdx : ℕ) (spaceChange : Int) : MState :=
  let e := s.dir.getD pageIdx defPDE
  let fs' := e.freeSpace + spaceChange
  let e' : PDEntry :=
    { e with freeSpace := fs', hasFreeSlot := decide (fs' ≥ (P.rs : Int) + P.SDE) }
  { s with dir := s.dir.set pageIdx e' }

/-- `savePageDirectoryToDisk`: serialize the header and every in-memory entry
into the single block `(numPages / maxEntriesPerPage) * maxEntriesPerPage +
numPageDP` via a raw `writeBlock`. -/
def savePageDirectoryToDisk (P : Params) (s : MState) : MState :=
  let blockToWrite := (s.nP / maxEPP P) * maxEPP P + s.nDP
  { s with dirDisk := updF s.dirDisk blockToWrite (some (s.nP, s.nDP, s.dir)) }

/-- The directory-growth step at the top of `insertRecord`: when
`numPages > maxEntriesPerPage * numPageDP`, bump both counters and write a
zeroed block at the new `numPages` position. -/
def dirGrowthStep (P : Params) (s : MState) : MState :=
  if maxEPP P * s.nDP < s.nP then
    { s with nP := s.nP + 1, nDP := s.nDP + 1, dirDisk := updF s.dirDisk (s.nP + 1) none }
  else s

/-- The new-data-page branch of `insertRecord`: compute the new page index,
bump `numPages`, grow the directory array (`realloc` keeps the old entries)
and write a zeroed block at the new `numPages` position. -/
def allocDataPage (P : Params) (s : MState) : MState × ℕ :=
  let pageIndex := s.nP - s.nDP + 1
  let nP' := s.nP + 1
  ({ s with nP := nP',
            dir := s.dir.take pageIndex ++ [initPageDirectoryEntry P (nP' - s.nDP)],
            dirDisk := updF s.dirDisk nP' none },
   pageIndex)

/-- Directory growth followed by the choice of the data page to insert into:
an existing page with a free slot, or a freshly allocated one. -/
def insertPlace (P : Params) (s : MState) : MState × ℕ :=
  let s1 := dirGrowthStep P s
  match findFreePageIndex s1 with
  | some i => (s1, i)
  | none => allocDataPage P s1

/-- Whether this insert will append a fresh slot (`locateFreeSlot` finds no
tombstoned slot on the chosen page). -/
def insertFresh (P : Params) (s : MState) : Bool :=
  let sp := insertPlace P s
  let e := sp.1.dir.getD sp.2 defPDE
  (locateFreeSlot (sp.1.blocks (recPhysPage e.pageID sp.1.nDP)) e.recordCount).isNone

/-- The body of `insertRecord` once the data page is chosen: find or append a
slot, compute the record offset as `PAGE_SIZE - recordCount * recordSize`
(with the post-increment `recordCount`), write the slot entry and the payload,
update the statistics and flush the directory. -/
def insertBody (P : Params) (sp : MState × ℕ) (rdata : List ℕ) : MState × RID :=
  let s2 := sp.1
  let pageIndex := sp.2
  let e := s2.dir.getD pageIndex defPDE
  let pageToPin := recPhysPage e.pageID s2.nDP
  let page := s2.blocks pageToPin
  let (slotIndex, rc') :=
    match locateFreeSlot page e.recordCount with
    | some i => (i, e.recordCount)
    | none => (e.recordCount, e.recordCount + 1)
  let recordOffset : Int := (P.PS : Int) - (rc' : Int) * P.rs
  let page' : Page :=
    { slots := updF page.slots slotIndex ⟨recordOffset, false⟩,
      mem := memWrite page.mem recordOffset.toNat (rdata.take P.rs) }
  let s3 := { s2 with dir := s2.dir.set pageIndex { e with recordCount := rc' },
                      blocks := updF s2.blocks pageToPin page' }
  let s4 := updatePageStatistics P s3 pageIndex (-((P.rs : Int) + P.SDE))
  (savePageDirectoryToDisk P s4, ⟨(e.pageID : Int), (slotIndex : Int)⟩)

/-- `insertRecord` (the success path; every I/O collaborator succeeds). -/
def insertRecord (P : Params) (s : MState) (rdata : List ℕ) : MState × RID :=
  insertBody P (insertPlace P s) rdata

/-- `deleteRecord`: validate the rid, pin `page + numPageDP + 1`, tombstone
the slot (`isFree = true`, marker byte `0xFD` at the payload's first byte),
credit `recordSize` bytes of free space and flush the directory. -/
def deleteRecord (P : Params) (s : MState) (id : RID) : RC × MState :=
  if isValidRecordID id s.nP then
    let pin := recPhysPage id.page.toNat s.nDP
    let page := s.blocks pin
    let e := page.slots id.slot.toNat
    if e.isFree then (RC_RM_RECORD_NOT_FOUND, s)
    else
      let page' : Page :=
        { slots := updF page.slots id.slot.toNat { e with isFree := true },
          mem := updF page.mem e.offset.toNat 0xFD }
      let s1 := { s with blocks := updF s.blocks pin page' }
      let s2 := updatePageStatistics P s1 id.page.toNat (P.rs : Int)
      (RC_OK, savePageDirectoryToDisk P s2)
  else (RC_RM_INVALID_RID, s)

/-- `getRecord`: validate the rid, pin `page + numPageDP + 1`, fail with
`RECORD_NOT_FOUND` on a free slot, else copy `recordSize` bytes from the
slot's offset. -/
def getRecord (P : Params) (s : MState) (id : RID) : RC × Option (List ℕ) :=
  if isValidRecordID id s.nP then
    let page := s.blocks (recPhysPage id.page.toNat s.nDP)
    let e := page.slots id.slot.toNat
    if e.isFree then (RC_RM_RECORD_NOT_FOUND, none)
    else (RC_OK, some (memRead page.mem e.offset.toNat P.rs))
  else (RC_RM_INVALID_RID, none)

/-- The state of a table right after `createTable` + `openTable`: one data
page described by one directory page at block 1, all blocks zeroed. -/
def mkInit (P : Params) : MState :=
  { nP := 1, nDP := 1,
    dir := [initPageDirectoryEntry P 0],
    blocks := fun _ => zeroPage,
    dirDisk := updF (fun _ => none) 1 (some (1, 1, [initPageDirectoryEntry P 0])) }

/-- Number of live (non-free) slots over all data pages, read at the blocks
the record operations address (`p + numPageDP + 1`). -/
def liveCount (s : MState) : ℕ :=
  ((List.range (numDataPages s)).map (fun p =>
    (List.range (s.dir.getD p defPDE).recordCount).countP
      (fun i => !((s.blocks (recPhysPage p s.nDP)).slots i).isFree))).sum

/-! ## Scan (`startScan` / `next`)

`next` is a pair of nested loops over `(currentPage, currentSlot)`.  They are
translated by structural recursion on the number of remaining iterations
(`numDataPages - currentPage` pages, `recordCount - currentSlot` slots).  The
expression evaluator is a collaborator; it is a parameter `ev` returning the
`boolV` field of the `Value` it allocates, or `none` when it yields no valid
`Value` — in which case the source dereferences an invalid pointer, modelled
by the `none` (crash) outcome.  `condNull` records whether the scan was
started with a NULL condition. -/

/-- One pass of the slot loop of `next` on a pinned page: skip free slots,
materialize the record, call the evaluator, and test
`result->v.boolV == TRUE || condition == NULL`. -/
def scanSlots (ev : List ℕ → Option Bool) (condNull : Bool) (P : Params) (page : Page)
    (cp : ℕ) : ℕ → ℕ → Option (Option ((RID × List ℕ) × ℕ))
  | 0, _ => some none
  | k + 1, cs =>
    let e := page.slots cs
    if e.isFree then scanSlots ev condNull P page cp k (cs + 1)
    else
      let data := memRead page.mem e.offset.toNat P.rs
      match ev data with
      | none => none
      | some r =>
        if r || condNull then some (some ((⟨(cp : Int), (cs : Int)⟩, data), cs + 1))
        else scanSlots ev condNull P page cp k (cs + 1)

/-- The page loop of `next`: pin the block computed by
`ceilDivision(p + 1, maxEntriesPerPage) + 1 + p`, run the slot loop bounded by
the directory's `recordCount`, and move to the next page with the slot cursor
reset to 0. -/
def scanPages (ev : List ℕ → Option Bool) (condNull : Bool) (P : Params) (s : MState) :
    ℕ → ℕ → ℕ → Option (Option ((RID × List ℕ) × ℕ × ℕ))
  | 0, _, _ => some none
  | k + 1, cp, cs =>
    let rc := (s.dir.getD cp defPDE).recordCount
    let page := s.blocks (scanPhysPage (maxEPP P) cp)
    match scanSlots ev condNull P page cp (rc - cs) cs with
    | none => none
    | some (some (r, ns)) => some (some (r, cp, ns))
    | some none => scanPages ev condNull P s k (cp + 1) 0

/-- `next`: outcome `none` is the crash outcome, `some none` is
`RC_RM_NO_MORE_TUPLES`, and `some (some ((rid, data), cursor'))` is `RC_OK`
with the updated scan cursor. -/
def next (ev : List ℕ → Option Bool) (condNull : Bool) (P : Params) (s : MState)
    (cp cs : ℕ) : Option (Option ((RID × List ℕ) × ℕ × ℕ)) :=
  scanPages ev condNull P s (numDataPages s - cp) cp cs

/-- Drive `next` from a cursor until `NO_MORE_TUPLES`, collecting the
returned records; `none` when a call crashes or the fuel runs out. -/
def scanRun (ev : List ℕ → Option Bool) (condNull : Bool) (P : Params) (s : MState) :
    ℕ → ℕ → ℕ → Option (List (RID × List ℕ))
  | 0, _, _ => none
  | fuel + 1, cp, cs =>
    match next ev condNull P s cp cs with
    | none => none
    | some none => some []
    | some (some (r, cp', cs')) =>
      match scanRun ev condNull P s fuel cp' cs' with
      | none => none
      | some rest => some (r :: rest)

/-! ## Close paths (`closeTable` / `closeScan`)

`closeTable` frees the schema parts, the directory array and the management
data, but never writes NULL back into `rel->schema` or `rel->managementData`;
`closeScan` does null its `mgmtData`.  The handles are modelled by the
non-NULL-ness of those pointers and each call reports the resources it
releases. -/

/-- The resources a close path releases. -/
inductive Resource where
  | schemaRes
  | pageDirectoryRes
  | bufferPoolRes
  | pageFileRes
  | mgmtDataRes
  | scanInfoRes
  deriving DecidableEq

/-- A table handle as `closeTable` sees it: whether `rel->schema` and
`rel->managementData` are non-NULL. -/
structure TableHandle where
  schemaPtr : Bool
  mgmtPtr : Bool
  deriving DecidableEq

/-- `closeTable`: the guard returns `RC_OK` releasing nothing when a pointer
is NULL; otherwise everything is freed — and the handle's pointers are left
untouched. -/
def closeTable (h : TableHandle) : RC × TableHandle × List Resource :=
  if !(h.mgmtPtr && h.schemaPtr) then (RC_OK, h, [])
  else (RC_OK, h, [Resource.schemaRes, Resource.pageDirectoryRes, Resource.bufferPoolRes,
                   Resource.pageFileRes, Resource.mgmtDataRes])

/-- A scan handle as `closeScan` sees it: whether `scan->mgmtData` is non-NULL. -/
structure ScanHandle where
  mgmtPtr : Bool
  deriving DecidableEq

/-- `closeScan`: free the scan info and set `scan->mgmtData = NULL`. -/
def closeScan (sc : ScanHandle) : RC × ScanHandle × List Resource :=
  if !sc.mgmtPtr then (RC_OK, sc, [])
  else (RC_OK, ⟨false⟩, [Resource.scanInfoRes])

/-! ## Close / reopen of a table (`loadPageDirectoryFromDisk`)

Closing a table shuts down the buffer pool, which writes every dirty data
frame back to its block, overwriting any raw directory write that landed
there; reopening reads the page directory from block 1 only. -/

/-- The on-disk directory layer after `closeTable`: each data page's home
block is overwritten by the buffer-pool flush. -/
def closeFlushDisk (s : MState) : ℕ → Option (ℕ × ℕ × List PDEntry) :=
  fun b =>
    if (List.range (numDataPages s)).any (fun p => b == recPhysPage p s.nDP) then none
    else s.dirDisk b

/-- `loadPageDirectoryFromDisk`: pin block 1, read `numPages` and `numPageDP`
from its header and then `numPages - numPageDP + 1` directory entries. -/
def loadPageDirectoryFromDisk (disk : ℕ → Option (ℕ × ℕ × List PDEntry)) :
    ℕ × ℕ × List PDEntry :=
  match disk 1 with
  | some (a, b, es) => (a, b, (List.range (a - b + 1)).map (fun i => es.getD i defPDE))
  | none => (0, 0, [])

/-- `getNumTuples` of the handle produced by closing and reopening the table. -/
def reopenNumTuples (s : MState) : ℕ :=
  let l := loadPageDirectoryFromDisk (closeFlushDisk s)
  (l.2.2.map (fun e => e.recordCount)).sum

/-! ## Concrete tables

Two instantiations of the layout parameters, kept small so that states are
fully evaluable: `P1` has `PAGE_SIZE = 64`, record size 8, both entry structs
8 and 16 bytes (`maxEntriesPerPage = 3`, four 16-byte record+slot pairs per
page); `P6` has `PAGE_SIZE = 24` with 8-byte entries (`maxEntriesPerPage = 2`,
one record per data page, so tables grow quickly). -/

def P1 : Params := ⟨64, 8, 8, 16⟩

def P6 : Params := ⟨24, 8, 8, 8⟩

def aBytes : List ℕ := List.replicate 8 17
def bBytes : List ℕ := List.replicate 8 34
def cBytes : List ℕ := List.replicate 8 51
def dBytes : List ℕ := List.replicate 8 68

/-- `P1` table: three records inserted on data page 0. -/
def t1a : MState := (insertRecord P1 (mkInit P1) aBytes).1

def t1b : MState := (insertRecord P1 t1a bBytes).1

def t1c : MState := (insertRecord P1 t1b cBytes).1

/-- `P1` table after deleting the middle record `(0,1)`. -/
def t1del : MState := (deleteRecord P1 t1c ⟨0, 1⟩).2

/-- `P1` table after a fourth insert that reuses tombstoned slot 1. -/
def t1reuse : MState := (insertRecord P1 t1del dBytes).1

/-- `P6` table: each insert fills a fresh one-record data page. -/
def t6a : MState := (insertRecord P6 (mkInit P6) aBytes).1

def t6b : MState := (insertRecord P6 t6a bBytes).1

def t6c : MState := (insertRecord P6 t6b cBytes).1

/-- `P6` table with the record on data page 2 deleted. -/
def t6del : MState := (deleteRecord P6 t6c ⟨2, 0⟩).2

/-- `P6` table after a fourth insert, which first appends a second directory
page (`numPages` was 3 > `maxEntriesPerPage * numPageDP` = 2) and then a
fourth data page. -/
def t6d : MState := (insertRecord P6 t6c dBytes).1

/-! ## Claim theorems -/

/-- C1: on `P1`'s page layout, insert `a`, `b`, `c` on data page 0 (rids
`(0,0)`, `(0,1)`, `(0,2)`), delete `(0,1)`, then insert `d`.  The reusing
insert computes its offset as `PAGE_SIZE - recordCount * recordSize` with
`recordCount` still 3, i.e. the offset of the live record in slot 2, so
`getRecord (0,2)` afterwards returns `d`'s bytes instead of `c`'s: the claim's
insert-then-get guarantee is violated by slot reuse overwriting a live
record's payload. -/
theorem insertReuse_clobbers_live_record :
    (insertRecord P1 t1b cBytes).2 = ⟨0, 2⟩ ∧
    getRecord P1 t1c ⟨0, 2⟩ = (RC.RC_OK, some cBytes) ∧
    (deleteRecord P1 t1c ⟨0, 1⟩).1 = RC.RC_OK ∧
    (insertRecord P1 t1del dBytes).2 = ⟨0, 1⟩ ∧
    getRecord P1 t1reuse ⟨0, 2⟩ = (RC.RC_OK, some dBytes) ∧
    dBytes ≠ cBytes := by
  decide

/-- C2 counterexample: insert one record into a fresh `P6` table and delete
it.  The delete succeeds, yet `getNumTuples` still returns 1 (not 0) while no
live slot remains: a successful `deleteRecord` does not decrease
`getNumTuples`, and `getNumTuples` is not the number of live slots. -/
theorem delete_does_not_decrement_numTuples_cex :
    getNumTuples t6a = 1 ∧
    (deleteRecord P6 t6a ⟨0, 0⟩).1 = RC.RC_OK ∧
    getNumTuples (deleteRecord P6 t6a ⟨0, 0⟩).2 = 1 ∧
    liveCount (deleteRecord P6 t6a ⟨0, 0⟩).2 = 0 := by
  decide

/-- C3: the table `t6d` is reached from `createTable` by four successful
inserts; its directory chain has grown to `numPageDP = 2` by the growth rule.
For its in-range data page `p = 0`, `next` computes physical block
`ceilDivision(1, maxEntriesPerPage) + 1 + 0 = 2` while `getRecord` computes
`0 + numPageDP + 1 = 3`: the two page-number computations disagree. -/
theorem scan_vs_getRecord_page_formula_mismatch :
    t6d.nDP = 2 ∧ numDataPages t6d = 4 ∧
    scanPhysPage (maxEPP P6) 0 = 2 ∧ recPhysPage 0 t6d.nDP = 3 ∧
    scanPhysPage (maxEPP P6) 0 ≠ recPhysPage 0 t6d.nDP := by
  decide

/-- C4: after two successful inserts on a `P6` table, `numPages = 2` reaches
`maxEntriesPerPage`, so `savePageDirectoryToDisk` writes the directory to
block `(2 / 2) * 2 + 1 = 3` and block 1 is left with the stale header from the
first insert.  Reopening loads only block 1, so `getNumTuples` drops from 2 to
1: the persisted directory does not round-trip through save and load. -/
theorem directory_roundtrip_loses_count :
    getNumTuples t6b = 2 ∧ reopenNumTuples t6b = 1 := by
  decide

/-- C6 counterexample: `t6d` has `numPages = 5`, `numPageDP = 2`, hence 4
data pages (valid indices 0..3).  The rid `(4, 0)` lies outside the data-page
range, so the claim requires `INVALID_RID`; but `isValidRecordID` only checks
`page < numPages = 5`, and `getRecord` proceeds and returns `RC_OK`. -/
theorem invalid_rid_bound_cex :
    numDataPages t6d = 4 ∧ t6d.nP = 5 ∧
    (getRecord P6 t6d ⟨4, 0⟩).1 = RC.RC_OK ∧
    (getRecord P6 t6d ⟨4, 0⟩).1 ≠ RC.RC_RM_INVALID_RID := by
  decide

/-- C7: `t6del` holds 2 live records; data page 2 exists (created while
`numPageDP = 1` and written at block 4) and its only record was deleted.  A
null-predicate scan pins block `ceilDivision(3, 2) + 1 + 2 = 5` for page 2 —
the wrong block, a zeroed page whose slot 0 parses as non-free — and so
returns 3 records including the rid `(2,0)` of the deleted record, instead of
exactly the 2 live records. -/
theorem scan_returns_deleted_slot :
    liveCount t6del = 2 ∧
    (scanRun (fun _ => some false) true P6 t6del 10 0 0).map (fun l => l.map Prod.fst) =
      some [⟨0, 0⟩, ⟨1, 0⟩, ⟨2, 0⟩] ∧
    getRecord P6 t6del ⟨2, 0⟩ = (RC.RC_RM_RECORD_NOT_FOUND, none) := by
  decide

/-- C8: closing an open table twice.  Both calls return `RC_OK`, but because
`closeTable` never nulls `rel->schema` / `rel->managementData`, the second
call passes the non-NULL guard and performs the whole release sequence again
(a double free), rather than performing no resource release.  `closeScan`, by
contrast, nulls `scan->mgmtData` and its second call releases nothing. -/
theorem double_close_releases_again :
    (closeTable ⟨true, true⟩).1 = RC.RC_OK ∧
    (closeTable (closeTable ⟨true, true⟩).2.1).1 = RC.RC_OK ∧
    (closeTable (closeTable ⟨true, true⟩).2.1).2.2 ≠ [] ∧
    (closeTable (closeTable ⟨true, true⟩).2.1).2.2 =
      (closeTable ⟨true, true⟩).2.2 ∧
    (closeScan (closeScan ⟨true⟩).2.1).2.2 = [] := by
  decide

/-! ## Attribute-codec lemmas (C5) -/

/-- Well-formedness of a value as the C code receives it: a C `int` is 32-bit,
a C `float` occupies four bytes, and a C string has no interior NUL byte. -/
def valueWF : Value → Prop
  | .intV i => -(2 ^ 31) ≤ i ∧ i < 2 ^ 31
  | .floatV bs => bs.length = 4
  | .boolV _ => True
  | .stringV s => ∀ b ∈ s, b ≠ 0

/-- The value `getAttr` hands back after `setAttr` stored `v`: unchanged for
INT/FLOAT/BOOL; for STRING, `v` truncated or zero-padded to `typeLength`
characters followed by the NUL terminator (`typeLength + 1` bytes in all). -/
def roundtripValue (v : Value) (n : ℕ) : Value :=
  match v with
  | .stringV s => .stringV (s.take n ++ List.replicate (n - s.length) 0 ++ [0])
  | v => v

theorem prefixSum_mono (f : ℕ → ℕ) {k n : ℕ} (h : k ≤ n) :
    ((List.range k).map f).sum ≤ ((List.range n).map f).sum := by
  induction h with
  | refl => exact le_refl _
  | step _ ih =>
    rw [List.range_succ, List.map_append, List.sum_append]
    exact le_trans ih (Nat.le_add_right _ _)

theorem attrOffset_add_le (sch : Schema) (k : ℕ) (h : k < sch.numAttr) :
    calculateAttributeOffset sch k +
      attrSize (sch.dataTypes.getD k DT_INT) (sch.typeLength.getD k 0) ≤
      computeRecordSize sch := by
  have hstep : calculateAttributeOffset sch k +
      attrSize (sch.dataTypes.getD k DT_INT) (sch.typeLength.getD k 0) =
      ((List.range (k + 1)).map
        (fun i => attrSize (sch.dataTypes.getD i DT_INT) (sch.typeLength.getD i 0))).sum := by
    rw [List.range_succ, List.map_append, List.sum_append]
    simp [calculateAttributeOffset]
  rw [hstep]
  exact prefixSum_mono _ h

theorem subBytes_splice (data : List ℕ) (off : ℕ) (new : List ℕ)
    (h : off ≤ data.length) :
    subBytes (splice data off new) off new.length = new := by
  unfold subBytes splice
  have hlt : (data.take off).length = off := by simp [h]
  rw [List.append_assoc, List.drop_left' hlt, List.take_left' rfl]

theorem getD_splice_single (data : List ℕ) (off x : ℕ) (h : off ≤ data.length) :
    (splice data off [x]).getD off 0 = x := by
  have hs := subBytes_splice data off [x] h
  unfold subBytes at hs
  rcases hd : (splice data off [x]).drop off with _ | ⟨y, tl⟩
  · rw [hd] at hs; simp at hs
  · rw [hd] at hs
    have h1 : (y :: tl).take ([x] : List ℕ).length = [y] := rfl
    rw [h1] at hs
    simp only [List.cons.injEq, and_true] at hs
    have : (splice data off [x])[off]? = some y := by
      have h0 : ((splice data off [x]).drop off)[0]? = some y := by rw [hd]; simp
      rw [List.getElem?_drop] at h0
      simpa using h0
    simp [List.getD_eq_getElem?_getD, this, hs]

theorem length_strncpyPad (s : List ℕ) (n : ℕ) : (strncpyPad s n).length = n := by
  unfold strncpyPad
  simp only [List.length_append, List.length_take, List.length_replicate]
  omega

theorem strncpyPad_no_nul (s : List ℕ) (n : ℕ) (h : ∀ b ∈ s, b ≠ 0) :
    strncpyPad s n = s.take n ++ List.replicate (n - s.length) 0 := by
  unfold strncpyPad
  rw [List.takeWhile_eq_self_iff.mpr (by intro b hb; simpa using h b hb)]

theorem strncpyPad_idem (s : List ℕ) (n : ℕ) (h : ∀ b ∈ s, b ≠ 0) :
    strncpyPad (s.take n ++ List.replicate (n - s.length) 0) n =
      s.take n ++ List.replicate (n - s.length) 0 := by
  rcases le_or_lt n s.length with hn | hn
  · have hz : n - s.length = 0 := by omega
    rw [hz]
    simp only [List.replicate_zero, List.append_nil]
    have htw : (s.take n).takeWhile (fun b => decide (b ≠ 0)) = s.take n :=
      List.takeWhile_eq_self_iff.mpr (by
        intro b hb
        exact by simpa using h b (List.mem_of_mem_take hb))
    have hlen : (s.take n).length = n := by simp [hn]
    unfold strncpyPad
    rw [htw, List.take_of_length_le (le_of_eq hlen), hlen]
    simp
  · have hm : n - s.length = (n - s.length - 1) + 1 := by omega
    have htw : (s ++ List.replicate (n - s.length) 0).takeWhile (fun b => decide (b ≠ 0)) = s := by
      rw [List.takeWhile_append_of_pos (by intro b hb; simpa using h b hb)]
      rw [hm, List.replicate_succ]
      simp
    have hts : s.take n = s := List.take_of_length_le (le_of_lt hn)
    unfold strncpyPad
    rw [hts, htw, hts]

theorem decodeIntLE_encodeIntLE (i : Int) (h1 : -(2 ^ 31) ≤ i) (h2 : i < 2 ^ 31) :
    decodeIntLE (encodeIntLE i) = i := by
  simp only [encodeIntLE, decodeIntLE, List.getD_cons_zero, List.getD_cons_succ]
  omega

/-- C5: for a record buffer of (at least) the schema's record size and an
attribute whose type matches the value's, `setAttr` succeeds and `getAttr`
reads back exactly `v` for INT, FLOAT and BOOL attributes; for a STRING
attribute it reads back `v` truncated or zero-padded to `typeLength`
characters as a NUL-terminated buffer of `typeLength + 1` bytes. -/
theorem setAttr_getAttr_roundtrip (sch : Schema) (data : List ℕ) (k : ℕ) (v : Value)
    (hk : k < sch.numAttr)
    (hlen : computeRecordSize sch ≤ data.length)
    (hmatch : v.dt = sch.dataTypes.getD k DT_INT)
    (hv : valueWF v) :
    (setAttr data sch (k : Int) v).1 = RC.RC_OK ∧
    getAttr (setAttr data sch (k : Int) v).2 sch (k : Int) =
      (RC.RC_OK, some (roundtripValue v (sch.typeLength.getD k 0))) := by
  have hval : ¬((k : Int) < 0 ∨ (sch.numAttr : Int) ≤ (k : Int)) := by omega
  have hoff := attrOffset_add_le sch k hk
  have hoffle : calculateAttributeOffset sch k ≤ data.length := by
    have := le_trans hoff hlen
    omega
  cases v with
  | intV i =>
    have hset : setAttr data sch (k : Int) (.intV i) =
        (RC.RC_OK, splice data (calculateAttributeOffset sch k) (encodeIntLE i)) := by
      unfold setAttr
      rw [if_neg hval, if_neg (by simp [Value.dt] at hmatch ⊢; simp [← hmatch])]
      simp [Int.toNat_natCast]
    rw [hset]
    refine ⟨rfl, ?_⟩
    unfold getAttr
    rw [if_neg hval]
    simp only [Int.toNat_natCast]
    rw [← hmatch]
    simp only [Value.dt]
    have h4 : (encodeIntLE i).length = 4 := rfl
    have hr := subBytes_splice data (calculateAttributeOffset sch k) (encodeIntLE i) hoffle
    rw [h4] at hr
    rw [hr, decodeIntLE_encodeIntLE i hv.1 hv.2]
    rfl
  | floatV bs =>
    have hfb : fourBytes bs = bs := by
      unfold fourBytes
      rw [List.take_append_of_le_length (le_of_eq hv.symm), List.take_of_length_le (le_of_eq hv)]
    have hset : setAttr data sch (k : Int) (.floatV bs) =
        (RC.RC_OK, splice data (calculateAttributeOffset sch k) bs) := by
      unfold setAttr
      rw [if_neg hval, if_neg (by simp [Value.dt] at hmatch ⊢; simp [← hmatch])]
      simp [Int.toNat_natCast, hfb]
    rw [hset]
    refine ⟨rfl, ?_⟩
    unfold getAttr
    rw [if_neg hval]
    simp only [Int.toNat_natCast]
    rw [← hmatch]
    simp only [Value.dt]
    have hr := subBytes_splice data (calculateAttributeOffset sch k) bs hoffle
    rw [hv] at hr
    rw [hr]
    rfl
  | boolV b =>
    have hset : setAttr data sch (k : Int) (.boolV b) =
        (RC.RC_OK, splice data (calculateAttributeOffset sch k) [if b then 1 else 0]) := by
      unfold setAttr
      rw [if_neg hval, if_neg (by simp [Value.dt] at hmatch ⊢; simp [← hmatch])]
      simp [Int.toNat_natCast]
    rw [hset]
    refine ⟨rfl, ?_⟩
    unfold getAttr
    rw [if_neg hval]
    simp only [Int.toNat_natCast]
    rw [← hmatch]
    simp only [Value.dt]
    have hr := getD_splice_single data (calculateAttributeOffset sch k) (if b then 1 else 0) hoffle
    rw [hr]
    cases b <;> simp [decodeBool, roundtripValue]
  | stringV s =>
    have hset : setAttr data sch (k : Int) (.stringV s) =
        (RC.RC_OK, splice data (calculateAttributeOffset sch k)
          (strncpyPad s (sch.typeLength.getD k 0))) := by
      unfold setAttr
      rw [if_neg hval, if_neg (by simp [Value.dt] at hmatch ⊢; simp [← hmatch])]
      simp [Int.toNat_natCast]
    rw [hset]
    refine ⟨rfl, ?_⟩
    unfold getAttr
    rw [if_neg hval]
    simp only [Int.toNat_natCast]
    rw [← hmatch]
    simp only [Value.dt]
    have hlenp := length_strncpyPad s (sch.typeLength.getD k 0)
    have hr := subBytes_splice data (calculateAttributeOffset sch k)
      (strncpyPad s (sch.typeLength.getD k 0)) hoffle
    rw [hlenp] at hr
    rw [hr, strncpyPad_no_nul s _ hv, strncpyPad_idem s _ hv]
    simp [roundtripValue]

/-- Witness for C5 at a concrete schema `(INT, STRING[3])`, storing the
string `[65, 66]` into attribute 1 of a zeroed 7-byte record. -/
theorem setAttr_getAttr_roundtrip_witness :
    (setAttr (List.replicate 7 0) ⟨2, ["id", "name"], [DT_INT, DT_STRING], [0, 3], 1, [0]⟩
        (1 : Int) (.stringV [65, 66])).1 = RC.RC_OK ∧
    getAttr (setAttr (List.replicate 7 0) ⟨2, ["id", "name"], [DT_INT, DT_STRING], [0, 3], 1, [0]⟩
        (1 : Int) (.stringV [65, 66])).2
        ⟨2, ["id", "name"], [DT_INT, DT_STRING], [0, 3], 1, [0]⟩ (1 : Int) =
      (RC.RC_OK, some (roundtripValue (.stringV [65, 66]) 3)) :=
  setAttr_getAttr_roundtrip ⟨2, ["id", "name"], [DT_INT, DT_STRING], [0, 3], 1, [0]⟩
    (List.replicate 7 0) 1 (.stringV [65, 66])
    (by decide) (by decide) (by decide) (by intro b hb; fin_cases hb <;> decide)

/-! ## RID validation (C6) -/

/-- C6 (amended): `getRecord` and `deleteRecord` return `INVALID_RID` exactly
when the rid fails `isValidRecordID`, whose page bound is `numPages` (all
pages except the schema page, directory pages included) rather than the
data-page count; for rids passing the check they return `RECORD_NOT_FOUND`
exactly when the addressed slot parses as free, and `RC_OK` otherwise. -/
theorem rid_validation_characterization (P : Params) (s : MState) (id : RID) :
    ((getRecord P s id).1 = RC.RC_RM_INVALID_RID ↔
      ¬(0 ≤ id.page ∧ id.page < (s.nP : Int) ∧ 0 ≤ id.slot)) ∧
    ((deleteRecord P s id).1 = RC.RC_RM_INVALID_RID ↔
      ¬(0 ≤ id.page ∧ id.page < (s.nP : Int) ∧ 0 ≤ id.slot)) ∧
    ((getRecord P s id).1 = RC.RC_RM_RECORD_NOT_FOUND ↔
      ((0 ≤ id.page ∧ id.page < (s.nP : Int) ∧ 0 ≤ id.slot) ∧
        ((s.blocks (recPhysPage id.page.toNat s.nDP)).slots id.slot.toNat).isFree = true)) ∧
    ((deleteRecord P s id).1 = RC.RC_RM_RECORD_NOT_FOUND ↔
      ((0 ≤ id.page ∧ id.page < (s.nP : Int) ∧ 0 ≤ id.slot) ∧
        ((s.blocks (recPhysPage id.page.toNat s.nDP)).slots id.slot.toNat).isFree = true)) ∧
    ((getRecord P s id).1 = RC.RC_OK ↔
      ((0 ≤ id.page ∧ id.page < (s.nP : Int) ∧ 0 ≤ id.slot) ∧
        ((s.blocks (recPhysPage id.page.toNat s.nDP)).slots id.slot.toNat).isFree = false)) ∧
    ((deleteRecord P s id).1 = RC.RC_OK ↔
      ((0 ≤ id.page ∧ id.page < (s.nP : Int) ∧ 0 ≤ id.slot) ∧
        ((s.blocks (recPhysPage id.page.toNat s.nDP)).slots id.slot.toNat).isFree = false)) := by
  have hvc : isValidRecordID id s.nP = true ↔
      (0 ≤ id.page ∧ id.page < (s.nP : Int) ∧ 0 ≤ id.slot) := by
    simp [isValidRecordID, and_assoc]
  by_cases hv : isValidRecordID id s.nP = true
  · have hvp := hvc.mp hv
    by_cases hf : ((s.blocks (recPhysPage id.page.toNat s.nDP)).slots id.slot.toNat).isFree = true
    · simp [getRecord, deleteRecord, hv, hf, hvp]
    · simp [getRecord, deleteRecord, hv, hf, hvp]
  · have hvp : ¬(0 ≤ id.page ∧ id.page < (s.nP : Int) ∧ 0 ≤ id.slot) := fun hc => hv (hvc.mpr hc)
    simp [getRecord, deleteRecord, hv, hvp]

/-! ## Directory bookkeeping lemmas (C2, C9) -/

/-- The `recordCount` stored for data page `j` (0 beyond the array, as zeroed
memory parses). -/
def rcAtL (l : List PDEntry) (j : ℕ) : ℕ := (l.getD j defPDE).recordCount

/-- Partial sums of `recordCount`, the quantity `getNumTuples` computes. -/
def sumRC (l : List PDEntry) (n : ℕ) : ℕ :=
  ((List.range n).map (fun i => (l.getD i defPDE).recordCount)).sum

theorem getNumTuples_eq_sumRC (s : MState) :
    getNumTuples s = sumRC s.dir (numDataPages s) := rfl

theorem rcAtL_set_ne (l : List PDEntry) (i j : ℕ) (e : PDEntry) (h : i ≠ j) :
    rcAtL (l.set i e) j = rcAtL l j := by
  simp [rcAtL, List.getD_eq_getElem?_getD, List.getElem?_set_ne h]

theorem rcAtL_set_self (l : List PDEntry) (i : ℕ) (e : PDEntry) (h : i < l.length) :
    rcAtL (l.set i e) i = e.recordCount := by
  simp [rcAtL, List.getD_eq_getElem?_getD, List.getElem?_set_self, h]

theorem rcAtL_set_oob (l : List PDEntry) (i : ℕ) (e : PDEntry) (h : l.length ≤ i) :
    rcAtL (l.set i e) i = rcAtL l i := by
  have h1 : (l.set i e)[i]? = none := by
    rw [List.getElem?_eq_none]
    simpa using h
  have h2 : l[i]? = none := by
    rw [List.getElem?_eq_none]
    exact h
  simp [rcAtL, List.getD_eq_getElem?_getD, h1, h2]

theorem rcAtL_set_preserved (l : List PDEntry) (i : ℕ) (e : PDEntry)
    (he : e.recordCount = rcAtL l i) (j : ℕ) :
    rcAtL (l.set i e) j = rcAtL l j := by
  by_cases hj : i = j
  · subst hj
    by_cases hl : i < l.length
    · rw [rcAtL_set_self l i e hl, he]
    · exact rcAtL_set_oob l i e (le_of_not_lt hl)
  · exact rcAtL_set_ne l i j e hj

theorem sumRC_succ (l : List PDEntry) (n : ℕ) :
    sumRC l (n + 1) = sumRC l n + rcAtL l n := by
  simp [sumRC, List.range_succ, rcAtL]

theorem sumRC_congr (l l' : List PDEntry) (n : ℕ)
    (h : ∀ j, j < n → rcAtL l j = rcAtL l' j) : sumRC l n = sumRC l' n := by
  unfold sumRC
  refine congrArg List.sum (List.map_congr_left ?_)
  intro j hj
  exact h j (List.mem_range.mp hj)

theorem sumRC_set (l : List PDEntry) (i n : ℕ) (e : PDEntry)
    (hlen : i < l.length) (hn : i < n) :
    sumRC (l.set i e) n + rcAtL l i = sumRC l n + e.recordCount := by
  induction n with
  | zero => omega
  | succ n ih =>
    rcases Nat.lt_or_ge i n with hin | hin
    · have hne : i ≠ n := by omega
      rw [sumRC_succ, sumRC_succ, rcAtL_set_ne l i n e hne]
      have := ih hin
      omega
    · have hieq : i = n := by omega
      subst hieq
      rw [sumRC_succ, sumRC_succ, rcAtL_set_self l i e hlen,
        sumRC_congr (l.set i e) l i (fun j hj => rcAtL_set_ne l i j e (by omega))]
      omega

theorem sumRC_append_singleton (l : List PDEntry) (e : PDEntry) (n : ℕ)
    (hlen : l.length = n) :
    sumRC (l ++ [e]) (n + 1) = sumRC l n + e.recordCount := by
  rw [sumRC_succ]
  have h1 : sumRC (l ++ [e]) n = sumRC l n := by
    refine sumRC_congr _ _ n (fun j hj => ?_)
    simp [rcAtL, List.getD_eq_getElem?_getD, List.getElem?_append_left (by omega : j < l.length)]
  have h2 : rcAtL (l ++ [e]) n = e.recordCount := by
    simp [rcAtL, List.getD_eq_getElem?_getD,
      List.getElem?_append_right (by omega : l.length ≤ n), hlen]
  rw [h1, h2]

theorem updatePageStatistics_fields (P : Params) (s : MState) (i : ℕ) (c : Int) :
    (updatePageStatistics P s i c).nP = s.nP ∧
    (updatePageStatistics P s i c).nDP = s.nDP ∧
    (updatePageStatistics P s i c).blocks = s.blocks ∧
    (∀ j, rcAtL (updatePageStatistics P s i c).dir j = rcAtL s.dir j) := by
  refine ⟨rfl, rfl, rfl, fun j => ?_⟩
  simp only [updatePageStatistics]
  refine rcAtL_set_preserved _ i _ ?_ j
  rfl

theorem savePageDirectoryToDisk_fields (P : Params) (s : MState) :
    (savePageDirectoryToDisk P s).nP = s.nP ∧
    (savePageDirectoryToDisk P s).nDP = s.nDP ∧
    (savePageDirectoryToDisk P s).dir = s.dir := ⟨rfl, rfl, rfl⟩

theorem getNumTuples_updatePageStatistics (P : Params) (s : MState) (i : ℕ) (c : Int) :
    getNumTuples (updatePageStatistics P s i c) = getNumTuples s := by
  rw [getNumTuples_eq_sumRC, getNumTuples_eq_sumRC]
  have hD : numDataPages (updatePageStatistics P s i c) = numDataPages s := rfl
  rw [hD]
  exact sumRC_congr _ _ _ (fun j _ => (updatePageStatistics_fields P s i c).2.2.2 j)

/-- The statistics update and the directory flush change no `recordCount`. -/
theorem rcAtL_updatePageStatistics (P : Params) (s : MState) (i : ℕ) (c : Int) (j : ℕ) :
    rcAtL (updatePageStatistics P s i c).dir j = rcAtL s.dir j :=
  (updatePageStatistics_fields P s i c).2.2.2 j

theorem rcAtL_savePageDirectoryToDisk (P : Params) (s : MState) (j : ℕ) :
    rcAtL (savePageDirectoryToDisk P s).dir j = rcAtL s.dir j := rfl

theorem getNumTuples_savePageDirectoryToDisk (P : Params) (s : MState) :
    getNumTuples (savePageDirectoryToDisk P s) = getNumTuples s := rfl

/-- Effect of `deleteRecord` on the page directory: whatever branch is taken,
no `recordCount` changes, the page counters are untouched, and therefore
`getNumTuples` is unchanged. -/
theorem deleteRecord_rc_effects (P : Params) (s : MState) (id : RID) :
    (deleteRecord P s id).2.nP = s.nP ∧
    (deleteRecord P s id).2.nDP = s.nDP ∧
    (∀ j, rcAtL (deleteRecord P s id).2.dir j = rcAtL s.dir j) ∧
    getNumTuples (deleteRecord P s id).2 = getNumTuples s := by
  by_cases hv : isValidRecordID id s.nP = true
  · by_cases hf :
        ((s.blocks (recPhysPage id.page.toNat s.nDP)).slots id.slot.toNat).isFree = true
    · refine ⟨?_, ?_, fun j => ?_, ?_⟩ <;> simp [deleteRecord, hv, hf]
    · refine ⟨?_, ?_, fun j => ?_, ?_⟩ <;>
        simp only [deleteRecord, hv, hf, if_true, if_false, Bool.false_eq_true,
          rcAtL_savePageDirectoryToDisk, rcAtL_updatePageStatistics,
          getNumTuples_savePageDirectoryToDisk, getNumTuples_updatePageStatistics] <;> rfl
  · refine ⟨?_, ?_, fun j => ?_, ?_⟩ <;> simp [deleteRecord, hv]

/-! ## Insert bookkeeping (C2, C9) -/

theorem dirGrowthStep_dir (P : Params) (s : MState) : (dirGrowthStep P s).dir = s.dir := by
  unfold dirGrowthStep
  split <;> rfl

theorem dirGrowthStep_blocks (P : Params) (s : MState) :
    (dirGrowthStep P s).blocks = s.blocks := by
  unfold dirGrowthStep
  split <;> rfl

theorem dirGrowthStep_D (P : Params) (s : MState) :
    numDataPages (dirGrowthStep P s) = numDataPages s := by
  unfold dirGrowthStep numDataPages
  split <;> simp

theorem dirGrowthStep_nd (P : Params) (s : MState) (h : s.nDP ≤ s.nP) :
    (dirGrowthStep P s).nDP ≤ (dirGrowthStep P s).nP := by
  unfold dirGrowthStep
  split <;> (try simp) <;> omega

theorem getNumTuples_dirGrowthStep (P : Params) (s : MState) :
    getNumTuples (dirGrowthStep P s) = getNumTuples s := by
  rw [getNumTuples_eq_sumRC, getNumTuples_eq_sumRC, dirGrowthStep_dir, dirGrowthStep_D]

theorem insertRecord_eq_found (P : Params) (s : MState) (rdata : List ℕ) (i : ℕ)
    (hfind : findFreePageIndex (dirGrowthStep P s) = some i) :
    insertRecord P s rdata = insertBody P (dirGrowthStep P s, i) rdata := by
  simp only [insertRecord, insertPlace]
  rw [hfind]

theorem insertRecord_eq_alloc (P : Params) (s : MState) (rdata : List ℕ)
    (hfind : findFreePageIndex (dirGrowthStep P s) = none) :
    insertRecord P s rdata = insertBody P (allocDataPage P (dirGrowthStep P s)) rdata := by
  simp only [insertRecord, insertPlace]
  rw [hfind]

theorem insertFresh_eq_found (P : Params) (s : MState) (i : ℕ)
    (hfind : findFreePageIndex (dirGrowthStep P s) = some i) :
    insertFresh P s =
      (locateFreeSlot
        ((dirGrowthStep P s).blocks
          (recPhysPage ((dirGrowthStep P s).dir.getD i defPDE).pageID (dirGrowthStep P s).nDP))
        ((dirGrowthStep P s).dir.getD i defPDE).recordCount).isNone := by
  simp only [insertFresh, insertPlace]
  rw [hfind]

theorem insertFresh_eq_alloc (P : Params) (s : MState)
    (hfind : findFreePageIndex (dirGrowthStep P s) = none) :
    insertFresh P s =
      (locateFreeSlot
        ((allocDataPage P (dirGrowthStep P s)).1.blocks
          (recPhysPage
            ((allocDataPage P (dirGrowthStep P s)).1.dir.getD
              (allocDataPage P (dirGrowthStep P s)).2 defPDE).pageID
            (allocDataPage P (dirGrowthStep P s)).1.nDP))
        ((allocDataPage P (dirGrowthStep P s)).1.dir.getD
          (allocDataPage P (dirGrowthStep P s)).2 defPDE).recordCount).isNone := by
  simp only [insertFresh, insertPlace]
  rw [hfind]

theorem allocDataPage_effects (P : Params) (s1 : MState)
    (hd : s1.nDP ≤ s1.nP) (hwf : s1.dir.length = numDataPages s1) :
    (allocDataPage P s1).2 = numDataPages s1 ∧
    (allocDataPage P s1).1.dir =
      s1.dir ++ [initPageDirectoryEntry P (s1.nP + 1 - s1.nDP)] ∧
    numDataPages (allocDataPage P s1).1 = numDataPages s1 + 1 ∧
    (allocDataPage P s1).1.blocks = s1.blocks ∧
    (allocDataPage P s1).1.nDP = s1.nDP ∧
    getNumTuples (allocDataPage P s1).1 = getNumTuples s1 ∧
    (∀ j, rcAtL (allocDataPage P s1).1.dir j = rcAtL s1.dir j) := by
  have htake : s1.dir.take (s1.nP - s1.nDP + 1) = s1.dir := by
    apply List.take_of_length_le
    rw [hwf]
    rfl
  have hdir : (allocDataPage P s1).1.dir =
      s1.dir ++ [initPageDirectoryEntry P (s1.nP + 1 - s1.nDP)] := by
    simp only [allocDataPage]
    rw [htake]
  have hD : numDataPages (allocDataPage P s1).1 = numDataPages s1 + 1 := by
    simp only [allocDataPage, numDataPages]
    omega
  have hrc : ∀ j, rcAtL (allocDataPage P s1).1.dir j = rcAtL s1.dir j := by
    intro j
    rw [hdir]
    rcases Nat.lt_or_ge j s1.dir.length with hj | hj
    · simp [rcAtL, List.getD_eq_getElem?_getD, List.getElem?_append_left hj]
    · rcases Nat.eq_or_lt_of_le hj with hj1 | hj1
      · simp [rcAtL, List.getD_eq_getElem?_getD,
          List.getElem?_append_right (le_of_eq hj1), ← hj1,
          List.getElem?_eq_none (le_refl s1.dir.length), initPageDirectoryEntry, defPDE]
      · have h1 : (s1.dir ++ [initPageDirectoryEntry P (s1.nP + 1 - s1.nDP)])[j]? = none := by
          rw [List.getElem?_eq_none]
          simp only [List.length_append, List.length_singleton]
          omega
        have h2 : s1.dir[j]? = none := by
          rw [List.getElem?_eq_none]
          omega
        simp [rcAtL, List.getD_eq_getElem?_getD, h1, h2]
  refine ⟨rfl, hdir, hD, rfl, rfl, ?_, hrc⟩
  rw [getNumTuples_eq_sumRC, getNumTuples_eq_sumRC, hD, hdir,
    sumRC_append_singleton s1.dir _ (numDataPages s1) hwf]
  simp [initPageDirectoryEntry]

theorem getNumTuples_mkDirBlocks (s : MState) (d : List PDEntry) (b : ℕ → Page) :
    getNumTuples { s with dir := d, blocks := b } = sumRC d (numDataPages s) := rfl

theorem rcAtL_mkDirBlocks (s : MState) (d : List PDEntry) (b : ℕ → Page) (j : ℕ) :
    rcAtL ({ s with dir := d, blocks := b } : MState).dir j = rcAtL d j := rfl

/-- Effect of the body of `insertRecord` on the directory, for any chosen page
index within the directory: `recordCount` of the chosen page is kept when a
tombstoned slot is reused and incremented by one when a fresh slot is
appended; no other entry changes. -/
theorem insertBody_rc_effects (P : Params) (sp : MState × ℕ) (rdata : List ℕ)
    (hlen : sp.2 < sp.1.dir.length) (hpiD : sp.2 < numDataPages sp.1) :
    getNumTuples (insertBody P sp rdata).1 =
      getNumTuples sp.1 +
        (if (locateFreeSlot
            (sp.1.blocks (recPhysPage (sp.1.dir.getD sp.2 defPDE).pageID sp.1.nDP))
            (sp.1.dir.getD sp.2 defPDE).recordCount).isNone then 1 else 0) ∧
    (∀ j, rcAtL sp.1.dir j ≤ rcAtL (insertBody P sp rdata).1.dir j) ∧
    ((locateFreeSlot
        (sp.1.blocks (recPhysPage (sp.1.dir.getD sp.2 defPDE).pageID sp.1.nDP))
        (sp.1.dir.getD sp.2 defPDE).recordCount).isNone = false →
      ∀ j, rcAtL (insertBody P sp rdata).1.dir j = rcAtL sp.1.dir j) := by
  cases hloc : locateFreeSlot
      (sp.1.blocks (recPhysPage (sp.1.dir.getD sp.2 defPDE).pageID sp.1.nDP))
      (sp.1.dir.getD sp.2 defPDE).recordCount with
  | some sj =>
    refine ⟨?_, fun j => ?_, fun _ j => ?_⟩
    · simp only [insertBody, hloc, getNumTuples_savePageDirectoryToDisk,
        getNumTuples_updatePageStatistics, getNumTuples_mkDirBlocks, Option.isNone_some,
        Bool.false_eq_true, if_false, Nat.add_zero]
      rw [getNumTuples_eq_sumRC]
      refine sumRC_congr _ _ _ (fun j _ => ?_)
      refine rcAtL_set_preserved _ sp.2 _ ?_ j
      rfl
    · simp only [insertBody, hloc, rcAtL_savePageDirectoryToDisk,
        rcAtL_updatePageStatistics, rcAtL_mkDirBlocks]
      refine le_of_eq ?_
      refine (rcAtL_set_preserved _ sp.2 _ ?_ j).symm
      rfl
    · simp only [insertBody, hloc, rcAtL_savePageDirectoryToDisk,
        rcAtL_updatePageStatistics, rcAtL_mkDirBlocks]
      refine rcAtL_set_preserved _ sp.2 _ ?_ j
      rfl
  | none =>
    have hset : ∀ j, rcAtL sp.1.dir j ≤
        rcAtL (sp.1.dir.set sp.2
          { sp.1.dir.getD sp.2 defPDE with
              recordCount := (sp.1.dir.getD sp.2 defPDE).recordCount + 1 }) j := by
      intro j
      by_cases hj : sp.2 = j
      · subst hj
        rw [rcAtL_set_self _ _ _ hlen]
        exact Nat.le_succ _
      · rw [rcAtL_set_ne _ _ _ _ hj]
    refine ⟨?_, fun j => ?_, fun hc j => ?_⟩
    · simp only [insertBody, hloc, getNumTuples_savePageDirectoryToDisk,
        getNumTuples_updatePageStatistics, getNumTuples_mkDirBlocks, Option.isNone_none,
        if_true]
      rw [getNumTuples_eq_sumRC]
      set e0 := sp.1.dir.getD sp.2 defPDE with he0
      have hs := sumRC_set sp.1.dir sp.2 (numDataPages sp.1)
        ⟨e0.pageID, e0.hasFreeSlot, e0.freeSpace, e0.recordCount + 1⟩ hlen hpiD
      have hrc : rcAtL sp.1.dir sp.2 = e0.recordCount := by rw [he0]; rfl
      have he2 : (⟨e0.pageID, e0.hasFreeSlot, e0.freeSpace, e0.recordCount + 1⟩ :
          PDEntry).recordCount = e0.recordCount + 1 := rfl
      omega
    · simp only [insertBody, hloc, rcAtL_savePageDirectoryToDisk,
        rcAtL_updatePageStatistics, rcAtL_mkDirBlocks]
      exact hset j
    · simp at hc
  
/-- Projection-free restatement of `insertBody_rc_effects`. -/
theorem insertBody_rc_effects2 (P : Params) (s2 : MState) (pi : ℕ) (rdata : List ℕ)
    (hlen : pi < s2.dir.length) (hpiD : pi < numDataPages s2) :
    getNumTuples (insertBody P (s2, pi) rdata).1 =
      getNumTuples s2 +
        (if (locateFreeSlot
            (s2.blocks (recPhysPage (s2.dir.getD pi defPDE).pageID s2.nDP))
            (s2.dir.getD pi defPDE).recordCount).isNone then 1 else 0) ∧
    (∀ j, rcAtL s2.dir j ≤ rcAtL (insertBody P (s2, pi) rdata).1.dir j) ∧
    ((locateFreeSlot
        (s2.blocks (recPhysPage (s2.dir.getD pi defPDE).pageID s2.nDP))
        (s2.dir.getD pi defPDE).recordCount).isNone = false →
      ∀ j, rcAtL (insertBody P (s2, pi) rdata).1.dir j = rcAtL s2.dir j) :=
  insertBody_rc_effects P (s2, pi) rdata hlen hpiD

/-- Effect of `insertRecord` on the directory bookkeeping: `getNumTuples`
grows by one exactly when a fresh slot is appended, and each page's
`recordCount` is non-decreasing (unchanged when a tombstoned slot is reused).
-/
theorem insertRecord_rc_effects (P : Params) (s : MState) (rdata : List ℕ)
    (hd : s.nDP ≤ s.nP) (hwf : s.dir.length = numDataPages s) :
    getNumTuples (insertRecord P s rdata).1 =
      getNumTuples s + (if insertFresh P s then 1 else 0) ∧
    (∀ j, rcAtL s.dir j ≤ rcAtL (insertRecord P s rdata).1.dir j) ∧
    (insertFresh P s = false →
      ∀ j, rcAtL (insertRecord P s rdata).1.dir j = rcAtL s.dir j) := by
  have h1dir := dirGrowthStep_dir P s
  have h1D := dirGrowthStep_D P s
  have h1nt := getNumTuples_dirGrowthStep P s
  have hwf1 : (dirGrowthStep P s).dir.length = numDataPages (dirGrowthStep P s) := by
    rw [h1dir, h1D]
    exact hwf
  have hd1 := dirGrowthStep_nd P s hd
  cases hfind : findFreePageIndex (dirGrowthStep P s) with
  | some i =>
    have heq := insertRecord_eq_found P s rdata i hfind
    have hfr := insertFresh_eq_found P s i hfind
    have hiD : i < numDataPages (dirGrowthStep P s) := by
      have hm := List.mem_of_find?_eq_some hfind
      exact List.mem_range.mp hm
    have hilen : i < (dirGrowthStep P s).dir.length := by rw [hwf1]; exact hiD
    have hb := insertBody_rc_effects2 P (dirGrowthStep P s) i rdata hilen hiD
    rw [heq, hfr]
    refine ⟨?_, fun j => ?_, fun hff j => ?_⟩
    · rw [hb.1, h1nt]
    · have h2 := hb.2.1 j
      rw [h1dir] at h2
      exact h2
    · have h3 := hb.2.2 hff j
      rw [h1dir] at h3
      exact h3
  | none =>
    have heq := insertRecord_eq_alloc P s rdata hfind
    have hfr := insertFresh_eq_alloc P s hfind
    obtain ⟨hpi, hdir2, hD2, hblocks2, hnDP2, hnt2, hrc2⟩ :=
      allocDataPage_effects P (dirGrowthStep P s) hd1 hwf1
    have he : (allocDataPage P (dirGrowthStep P s)).1.dir.getD
        (allocDataPage P (dirGrowthStep P s)).2 defPDE =
        initPageDirectoryEntry P ((dirGrowthStep P s).nP + 1 - (dirGrowthStep P s).nDP) := by
      rw [hdir2, hpi]
      simp [List.getD_eq_getElem?_getD, List.getElem?_append_right (le_of_eq hwf1), hwf1]
    have hrc0 : ((allocDataPage P (dirGrowthStep P s)).1.dir.getD
        (allocDataPage P (dirGrowthStep P s)).2 defPDE).recordCount = 0 := by
      rw [he]
      rfl
    have hfr2 : insertFresh P s = true := by
      rw [hfr, hrc0]
      rfl
    have hlen2 : (allocDataPage P (dirGrowthStep P s)).2 <
        (allocDataPage P (dirGrowthStep P s)).1.dir.length := by
      rw [hdir2, hpi]
      simp only [List.length_append, List.length_singleton]
      omega
    have hpiD2 : (allocDataPage P (dirGrowthStep P s)).2 <
        numDataPages (allocDataPage P (dirGrowthStep P s)).1 := by
      rw [hpi, hD2]
      omega
    have hb := insertBody_rc_effects2 P (allocDataPage P (dirGrowthStep P s)).1
      (allocDataPage P (dirGrowthStep P s)).2 rdata hlen2 hpiD2
    rw [heq, hfr2]
    refine ⟨?_, fun j => ?_, fun hff j => ?_⟩
    · have h1 := hb.1
      rw [hrc0] at h1
      have hz : locateFreeSlot
          ((allocDataPage P (dirGrowthStep P s)).1.blocks
            (recPhysPage ((allocDataPage P (dirGrowthStep P s)).1.dir.getD
              (allocDataPage P (dirGrowthStep P s)).2 defPDE).pageID
            (allocDataPage P (dirGrowthStep P s)).1.nDP)) 0 = none := rfl
      rw [hz] at h1
      simp only [Option.isNone_none, if_true] at h1
      rw [hnt2, h1nt] at h1
      simpa using h1
    · have h2 := hb.2.1 j
      rw [hrc2 j, h1dir] at h2
      exact h2
    · simp at hff

/-! ## Scan evaluator discipline (C10) -/

theorem scanSlots_consults (ev : List ℕ → Option Bool) (condNull : Bool) (P : Params)
    (page : Page) (cp : ℕ) :
    ∀ k cs rid data ns, scanSlots ev condNull P page cp k cs = some (some ((rid, data), ns)) →
      ∃ r, ev data = some r ∧ (r = true ∨ condNull = true) := by
  intro k
  induction k with
  | zero =>
    intro cs rid data ns h
    simp [scanSlots] at h
  | succ k ih =>
    intro cs rid data ns h
    simp only [scanSlots] at h
    split at h
    · exact ih _ _ _ _ h
    · split at h
      · simp at h
      · rename_i r hev
        split at h
        · rename_i hcond
          simp only [Option.some.injEq, Prod.mk.injEq] at h
          obtain ⟨⟨hrid, hdata⟩, hns⟩ := h
          subst hdata
          refine ⟨r, hev, ?_⟩
          rcases (by simpa using hcond : r = true ∨ condNull = true) with h1 | h1
          · exact Or.inl h1
          · exact Or.inr h1
        · exact ih _ _ _ _ h

theorem scanPages_consults (ev : List ℕ → Option Bool) (condNull : Bool) (P : Params)
    (s : MState) :
    ∀ k cp cs rid data c,
      scanPages ev condNull P s k cp cs = some (some ((rid, data), c)) →
      ∃ r, ev data = some r ∧ (r = true ∨ condNull = true) := by
  intro k
  induction k with
  | zero =>
    intro cp cs rid data c h
    simp [scanPages] at h
  | succ k ih =>
    intro cp cs rid data c h
    simp only [scanPages] at h
    split at h
    · simp at h
    · rename_i r ns hs
      obtain ⟨rid1, data1⟩ := r
      simp only [Option.some.injEq, Prod.mk.injEq] at h
      obtain ⟨⟨hrid, hdata⟩, hc⟩ := h
      subst hdata
      exact scanSlots_consults ev condNull P _ cp _ _ _ _ _ hs
    · exact ih _ _ _ _ _ h

/-- C10: whenever `next` returns a record, `evalExpr`'s result for that record
was a valid `Value` whose boolean field was read and combined with the
null-condition test — even when the scan condition is NULL; consequently, with
an evaluator that never yields a valid `Value`, `next` can never return a
record, null condition or not. -/
theorem next_always_consults_evaluator :
    (∀ (ev : List ℕ → Option Bool) (condNull : Bool) (P : Params) (s : MState)
        (cp cs : ℕ) (rid : RID) (data : List ℕ) (c : ℕ × ℕ),
      next ev condNull P s cp cs = some (some ((rid, data), c)) →
      ∃ r, ev data = some r ∧ (r = true ∨ condNull = true)) ∧
    (∀ (condNull : Bool) (P : Params) (s : MState) (cp cs : ℕ)
        (x : (RID × List ℕ) × ℕ × ℕ),
      next (fun _ => none) condNull P s cp cs ≠ some (some x)) := by
  have h1 : ∀ (ev : List ℕ → Option Bool) (condNull : Bool) (P : Params) (s : MState)
      (cp cs : ℕ) (rid : RID) (data : List ℕ) (c : ℕ × ℕ),
      next ev condNull P s cp cs = some (some ((rid, data), c)) →
      ∃ r, ev data = some r ∧ (r = true ∨ condNull = true) := by
    intro ev condNull P s cp cs rid data c h
    exact scanPages_consults ev condNull P s _ _ _ _ _ _ h
  refine ⟨h1, ?_⟩
  intro condNull P s cp cs x h
  obtain ⟨⟨rid, data⟩, c⟩ := x
  obtain ⟨r, hr, _⟩ := h1 (fun _ => none) condNull P s cp cs rid data c h
  simp at hr

/-- Witness for C10: on `t1a` (one live record on data page 0), a
null-predicate `next` with an evaluator always answering `boolV = false`
still returns the record, and the theorem recovers that evaluator call. -/
theorem next_always_consults_evaluator_witness :
    ∃ r, (fun _ : List ℕ => some false) aBytes = some r ∧ (r = true ∨ true = true) :=
  next_always_consults_evaluator.1 (fun _ => some false) true P1 t1a 0 0 ⟨0, 0⟩ aBytes
    (0, 1) (by decide)

/-- C2 (amended): `getNumTuples` returns the sum of `recordCount` over the
in-memory directory, which counts allocated slot positions — live and
tombstoned alike: a successful (or failed) `deleteRecord` leaves the value
unchanged, and `insertRecord` increases it by one exactly when it appends a
fresh slot, leaving it unchanged when it reuses a tombstoned slot. -/
theorem numTuples_counts_allocated_slots (P : Params) (s : MState)
    (hd : s.nDP ≤ s.nP) (hwf : s.dir.length = numDataPages s) :
    (∀ id, getNumTuples (deleteRecord P s id).2 = getNumTuples s) ∧
    (∀ rdata, getNumTuples (insertRecord P s rdata).1 =
      getNumTuples s + (if insertFresh P s then 1 else 0)) :=
  ⟨fun id => (deleteRecord_rc_effects P s id).2.2.2,
   fun rdata => (insertRecord_rc_effects P s rdata hd hwf).1⟩

/-- Witness for C2 (amended) on the one-record `P6` table `t6a`. -/
theorem numTuples_counts_allocated_slots_witness :
    getNumTuples (deleteRecord P6 t6a ⟨0, 0⟩).2 = getNumTuples t6a ∧
    getNumTuples (insertRecord P6 t6a bBytes).1 =
      getNumTuples t6a + (if insertFresh P6 t6a then 1 else 0) :=
  ⟨(numTuples_counts_allocated_slots P6 t6a (by decide) (by decide)).1 ⟨0, 0⟩,
   (numTuples_counts_allocated_slots P6 t6a (by decide) (by decide)).2 bBytes⟩

/-- C9: `recordCount` is non-decreasing across record operations: a
successful (or failed) `deleteRecord` leaves every entry's `recordCount`
unchanged — it touches only `freeSpace` and `hasFreeSlot` — and
`insertRecord` increments the chosen page's `recordCount` only when no
tombstoned slot is reused; so `recordCount` counts allocated slot positions,
live and tombstoned alike. -/
theorem recordCount_monotone (P : Params) (s : MState)
    (hd : s.nDP ≤ s.nP) (hwf : s.dir.length = numDataPages s) :
    (∀ id j, rcAtL (deleteRecord P s id).2.dir j = rcAtL s.dir j) ∧
    (∀ rdata j, rcAtL s.dir j ≤ rcAtL (insertRecord P s rdata).1.dir j) ∧
    (∀ rdata, insertFresh P s = false →
      ∀ j, rcAtL (insertRecord P s rdata).1.dir j = rcAtL s.dir j) :=
  ⟨fun id j => (deleteRecord_rc_effects P s id).2.2.1 j,
   fun rdata j => (insertRecord_rc_effects P s rdata hd hwf).2.1 j,
   fun rdata hff j => (insertRecord_rc_effects P s rdata hd hwf).2.2 hff j⟩

/-- Witness for C9 on the three-page `P6` table `t6c`: deleting `(2,0)` keeps
every `recordCount`, and a further insert keeps them non-decreasing. -/
theorem recordCount_monotone_witness :
    rcAtL (deleteRecord P6 t6c ⟨2, 0⟩).2.dir 2 = rcAtL t6c.dir 2 ∧
    rcAtL t6c.dir 0 ≤ rcAtL (insertRecord P6 t6c dBytes).1.dir 0 :=
  ⟨(recordCount_monotone P6 t6c (by decide) (by decide)).1 ⟨2, 0⟩ 2,
   (recordCount_monotone P6 t6c (by decide) (by decide)).2.1 dBytes 0⟩

end RecordMgr
